import Mathlib

/-!
Verification development for the KL27 assembler (src/compiler/compiler.py).

The Python compiler is shallowly embedded below.  Python strings are Lean
Strings; Python bytes objects are lists of byte values (Nat, each < 256);
Python functions that can raise an uncaught exception are modelled as
Option- or Except-valued functions.  The mutable line list together with
the line cursor of the main loop is represented by the still-unread suffix
of the line list: the slice assignment
"lines[lineno:lineno] = newlines.splitlines()" inserts exactly at the
cursor, i.e. it prepends to the unread suffix (lineno itself is used only
in diagnostic prints, which are not modelled).  Except error codes:
1 stands for an explicit "return 1" in kl27_compile, 2 for an uncaught
Python exception (OverflowError, KeyError, TypeError, ValueError,
IndexError, FileNotFoundError), 99 for exhaustion of the loop fuel that
makes the unbounded while-loop a total function.
-/

namespace KL27

/-- Characters of a string, Python-style helper: s[0:n]. -/
def strTake (s : String) (n : Nat) : String :=
  String.mk (s.data.take n)

/-- Python s[1:]. -/
def strTail (s : String) : String :=
  String.mk (s.data.drop 1)

/-- Python s[:-1]. -/
def dropLastStr (s : String) : String :=
  String.mk (s.data.dropLast)

/-- Python s.lstrip().rstrip(): strip whitespace from both ends. -/
def trimStr (s : String) : String :=
  String.mk (((s.data.dropWhile Char.isWhitespace).reverse.dropWhile Char.isWhitespace).reverse)

/-- Python s.startswith(p). -/
def startsWithStr (s p : String) : Bool :=
  p.data.isPrefixOf s.data

/-- Python s.endswith(p). -/
def endsWithStr (s p : String) : Bool :=
  p.data.reverse.isPrefixOf s.data.reverse

/-- Helper for splitOnSpace: accumulate the current field (reversed). -/
def splitOnSpaceAux : List Char → List Char → List (List Char)
  | [], acc => [acc.reverse]
  | c :: cs, acc =>
    if c = ' ' then acc.reverse :: splitOnSpaceAux cs []
    else splitOnSpaceAux cs (c :: acc)

/-- Python s.split(" "): split on single spaces, keeping empty fields. -/
def splitOnSpace (s : String) : List String :=
  (splitOnSpaceAux s.data []).map String.mk

/-- Python " ".join(l). -/
def joinSpace : List String → String
  | [] => ""
  | [x] => x
  | x :: y :: xs => x ++ " " ++ joinSpace (y :: xs)

/-- Helper for splitWS. -/
def splitWSAux : List Char → List Char → List (List Char)
  | [], [] => []
  | [], acc => [acc.reverse]
  | c :: cs, acc =>
    if c.isWhitespace then
      (if acc = [] then splitWSAux cs [] else acc.reverse :: splitWSAux cs [])
    else splitWSAux cs (c :: acc)

/-- Whitespace split dropping empty fields.  Models shlex.split for the
unquoted arguments the compiler passes to it. -/
def splitWS (s : String) : List String :=
  (splitWSAux s.data []).map String.mk

/-- Python s.upper() (ASCII). -/
def toUpperStr (s : String) : String :=
  String.mk (s.data.map Char.toUpper)

/-- Big-endian two-byte encoding of a natural number below 2^16. -/
def be2 (n : Nat) : List Nat :=
  [n / 256 % 256, n % 256]

/-- Big-endian four-byte encoding of a natural number below 2^32. -/
def be4 (n : Nat) : List Nat :=
  [n / 16777216 % 256, n / 65536 % 256, n / 256 % 256, n % 256]

/-- Python n.to_bytes(2, byteorder="big") on a non-negative int: raises
OverflowError (modelled none) when the value needs more than two bytes. -/
def toBytes2N (n : Nat) : Option (List Nat) :=
  if n < 65536 then some (be2 n) else none

/-- Python n.to_bytes(4, byteorder="big") on a non-negative int. -/
def toBytes4N (n : Nat) : Option (List Nat) :=
  if n < 4294967296 then some (be4 n) else none

/-- Python v.to_bytes(2, byteorder="big") on an int that may be negative:
raises (modelled none) unless 0 <= v < 2^16. -/
def toBytes2I (v : Int) : Option (List Nat) :=
  if 0 ≤ v ∧ v < 65536 then some (be2 v.toNat) else none

/-- Value of one digit character in the given base, none if invalid. -/
def digitVal (base : Nat) (c : Char) : Option Nat :=
  let d :=
    if '0' ≤ c ∧ c ≤ '9' then some (c.toNat - 48)
    else if 'a' ≤ c ∧ c ≤ 'f' then some (c.toNat - 87)
    else if 'A' ≤ c ∧ c ≤ 'F' then some (c.toNat - 55)
    else none
  match d with
  | some v => if v < base then some v else none
  | none => none

/-- Accumulate digits left to right; none on the first invalid digit. -/
def parseDigitsAux (base : Nat) : List Char → Nat → Option Nat
  | [], acc => some acc
  | c :: cs, acc =>
    match digitVal base c with
    | none => none
    | some d => parseDigitsAux base cs (acc * base + d)

/-- Parse a non-empty digit string in the given base. -/
def parseDigitsNE (base : Nat) (cs : List Char) : Option Nat :=
  if cs = [] then none else parseDigitsAux base cs 0

/-- Magnitude part of Python int(text, 0): base prefixes 0x, 0o, 0b are
honoured, a bare "0" (or all zeros) is zero, and a decimal number must not
have a leading zero.  Numeric-literal underscores are not modelled; no
claim exercises them. -/
def parseUnsignedPy : List Char → Option Nat
  | '0' :: c :: rest =>
    if c = 'x' ∨ c = 'X' then parseDigitsNE 16 rest
    else if c = 'o' ∨ c = 'O' then parseDigitsNE 8 rest
    else if c = 'b' ∨ c = 'B' then parseDigitsNE 2 rest
    else if ('0' :: c :: rest).all (fun ch => ch = '0') then some 0
    else none
  | ['0'] => some 0
  | cs => parseDigitsNE 10 cs

/-- Python int(text, 0): strips surrounding whitespace, allows one sign,
then parses the magnitude with base auto-detection.  Raising ValueError on
malformed text is modelled as none. -/
def parseIntPy (s : String) : Option Int :=
  let cs := ((s.data.dropWhile Char.isWhitespace).reverse.dropWhile Char.isWhitespace).reverse
  match cs with
  | '-' :: rest => (parseUnsignedPy rest).map (fun n => -(n : Int))
  | '+' :: rest => (parseUnsignedPy rest).map (fun n => (n : Int))
  | rest => (parseUnsignedPy rest).map (fun n => (n : Int))

/-- One element of the code list built by kl27_compile: either a concrete
byte string or a LabelPlaceholder for a still-unresolved label. -/
inductive Segment where
  | bytes (bs : List Nat)
  | placeholder (label_name : String)
deriving DecidableEq

/-- Python len() of a code-list element: byte strings report their length,
LabelPlaceholder.__len__ returns 2. -/
def segLen : Segment → Nat
  | .bytes bs => bs.length
  | .placeholder _ => 2

/-- Total byte length of a list of segments; this is the quantity the
driver adds to current_pointer. -/
def segsLen (l : List Segment) : Nat :=
  (l.map segLen).sum

/-- R_MAP register table: R0-R7 map to 0-7, MAR 8, MVR 9, PC 10; an
unknown register name raises KeyError, modelled none. -/
def R_MAP : String → Option Nat
  | "MAR" => some 8
  | "MVR" => some 9
  | "PC" => some 10
  | "R0" => some 0
  | "R1" => some 1
  | "R2" => some 2
  | "R3" => some 3
  | "R4" => some 4
  | "R5" => some 5
  | "R6" => some 6
  | "R7" => some 7
  | _ => none

/-- compile_nop: one 4-byte unit 00 00 00 00. -/
def compile_nop (_line : String) : Option (List Segment) :=
  some [.bytes [0, 0, 0, 0]]

/-- compile_hlt: one 4-byte unit 00 01 00 00. -/
def compile_hlt (_line : String) : Option (List Segment) :=
  some [.bytes [0, 1, 0, 0]]

/-- compile_sl: opcode 00 02 followed by the literal as two big-endian
bytes; int parsing or to_bytes overflow raises (none). -/
def compile_sl (line : String) : Option (List Segment) :=
  (parseIntPy line).bind fun v =>
    (toBytes2I v).map fun b => [.bytes [0, 2], .bytes b]

/-- compile_spop: opcode 00 03; an empty operand defaults the count to 1,
otherwise the parsed literal is encoded as two big-endian bytes. -/
def compile_spop (line : String) : Option (List Segment) :=
  if line = "" then some [.bytes [0, 3], .bytes (be2 1)]
  else
    (parseIntPy line).bind fun v =>
      (toBytes2I v).map fun b => [.bytes [0, 3], .bytes b]

/-- compile_llbl: opcode 00 04 followed by a LabelPlaceholder for the
operand label. -/
def compile_llbl (line : String) : Option (List Segment) :=
  some [.bytes [0, 4], .placeholder line]

/-- compile_rgw: opcode 00 10; the operand register name is upper-cased,
looked up in R_MAP (KeyError modelled none) and encoded big-endian. -/
def compile_rgw (line : String) : Option (List Segment) :=
  (R_MAP (toUpperStr line)).map fun r => [.bytes [0, 16], .bytes (be2 r)]

/-- compile_rgr: opcode 00 11, operand as in compile_rgw. -/
def compile_rgr (line : String) : Option (List Segment) :=
  (R_MAP (toUpperStr line)).map fun r => [.bytes [0, 17], .bytes (be2 r)]

/-- compile_jmpl: the Python function assembles the llbl+jmpa expansion in
a local variable but has no return statement, so it returns None; none is
the faithful translation (the driver then crashes in code.extend). -/
def compile_jmpl (_line : String) : Option (List Segment) :=
  none

/-- compile_jmpr: rgr PC, add 16, rgw R7, llbl label, jmpa — ten
segments forming five 4-byte units. -/
def compile_jmpr (line : String) : Option (List Segment) :=
  some [.bytes [0, 17], .bytes (be2 10),
        .bytes [0, 48], .bytes [0, 16],
        .bytes [0, 16], .bytes (be2 7),
        .bytes [0, 4], .placeholder line,
        .bytes [0, 35], .bytes [0, 0]]

/-- compile_ret: rgr R7 then jmpa. -/
def compile_ret (_line : String) : Option (List Segment) :=
  some [.bytes [0, 17], .bytes (be2 7),
        .bytes [0, 35], .bytes [0, 0]]

/-- compile_jmpa: one 4-byte unit 00 23 00 00. -/
def compile_jmpa (_line : String) : Option (List Segment) :=
  some [.bytes [0, 35, 0, 0]]

/-- compile_add: opcode 00 30; an empty operand emits the 00 00
load-from-stack sentinel, otherwise the parsed literal is encoded. -/
def compile_add (line : String) : Option (List Segment) :=
  if line = "" then some [.bytes [0, 48], .bytes [0, 0]]
  else
    (parseIntPy line).bind fun v =>
      (toBytes2I v).map fun b => [.bytes [0, 48], .bytes b]

/-- The compile_{instruction} lookup in globals(): an explicit map from
mnemonic to encoder, none for an unknown mnemonic. -/
def encoderFor : String → Option (String → Option (List Segment))
  | "nop" => some compile_nop
  | "hlt" => some compile_hlt
  | "sl" => some compile_sl
  | "spop" => some compile_spop
  | "llbl" => some compile_llbl
  | "rgw" => some compile_rgw
  | "rgr" => some compile_rgr
  | "jmpl" => some compile_jmpl
  | "jmpr" => some compile_jmpr
  | "ret" => some compile_ret
  | "jmpa" => some compile_jmpa
  | "add" => some compile_add
  | _ => none

/-- label_table[current_label] = (len(label_table), current_pointer) on an
OrderedDict: assigning an existing key replaces its value in place keeping
its position (and len is taken before the assignment), a new key is
appended with the current size as its sequence id. -/
def labelDeclare (tbl : List (String × Nat × Nat)) (name : String) (ptr : Nat) :
    List (String × Nat × Nat) :=
  if tbl.any (fun e => e.1 == name) then
    tbl.map (fun e => if e.1 = name then (name, tbl.length, ptr) else e)
  else
    tbl ++ [(name, tbl.length, ptr)]

/-- Scan a list of (label name, address-at-declaration) pairs through
labelDeclare, starting from the empty table. -/
def declareAll (ds : List (String × Nat)) : List (String × Nat × Nat) :=
  ds.foldl (fun t d => labelDeclare t d.1 d.2) []

/-- OrderedDict lookup label_table[name]: the (sequence_id, address) pair,
none for a missing key (KeyError). -/
def lookupLabel : List (String × Nat × Nat) → String → Option (Nat × Nat)
  | [], _ => none
  | e :: r, name => if e.1 = name then some e.2 else lookupLabel r name

/-- LabelPlaceholder.resolve plus the identity on concrete byte strings:
table[label_name][0].to_bytes(2, byteorder="big"); a missing label or an
oversized sequence id raises (none). -/
def resolveSeg (tbl : List (String × Nat × Nat)) : Segment → Option (List Nat)
  | .bytes bs => some bs
  | .placeholder L => (lookupLabel tbl L).bind fun e => toBytes2N e.1

/-- fix_jumps: walk the code list once, in order and in place, replacing
every placeholder by its resolved two-byte value. -/
def fixJumps (tbl : List (String × Nat × Nat)) : List Segment → Option (List (List Nat))
  | [] => some []
  | s :: r => (resolveSeg tbl s).bind fun b => (fixJumps tbl r).map fun bs => b :: bs

/-- Result of process_include: the updated include-guard list, the lines
spliced into the stream, and whether the missing-ID warning was printed. -/
structure IncludeResult where
  includes : List String
  spliced : List String
  warned : Bool
deriving DecidableEq

/-- The guard identifier extracted from the first line:
" ".join(firstline.split(" ")[1:]). -/
def sidOf (first : String) : String :=
  joinSpace ((splitOnSpace first).drop 1)

/-- process_include, given the included file's lines: f.readline() consumes
the first line and checks it for "#ID"; on a duplicate identifier nothing
is read further and nothing is spliced; otherwise the rest of the file
(the first line is already consumed) is spliced; a file without the tag
is spliced the same way but with a warning and no guard recorded. -/
def processInclude (fileLines : List String) (includes : List String) : IncludeResult :=
  match fileLines with
  | [] => ⟨includes, [], true⟩
  | first :: rest =>
    if strTake first 3 = "#ID" then
      if sidOf first ∈ includes then ⟨includes, [], false⟩
      else ⟨includes ++ [sidOf first], rest, false⟩
    else ⟨includes, rest, true⟩

/-- Mutable state of the kl27_compile scan loop. -/
structure ScanState where
  pointer : Nat
  label_table : List (String × Nat × Nat)
  code : List Segment
  includes : List String
  current_label : Option String
deriving DecidableEq

/-- Command-line arguments that affect the scan. -/
structure Args where
  entry_point : String
  no_automatic_main : Bool
deriving DecidableEq

/-- State at the top of kl27_compile. -/
def initState : ScanState :=
  ⟨0, [], [], [], none⟩

/-- Instruction-line handling: split off the mnemonic, look up its
compile_ function (unknown mnemonic is the explicit error return 1), call
it on the rest of the line (an encoder raising, or returning None as
compile_jmpl does, crashes the driver: error 2), then extend the code
list and advance the pointer by the summed segment lengths. -/
def execInstr (line : String) (σ : ScanState) : Except Nat (List String × ScanState) :=
  match encoderFor ((splitOnSpace line).headD "") with
  | none => .error 1
  | some enc =>
    match enc (joinSpace ((splitOnSpace line).drop 1)) with
    | none => .error 2
    | some segs =>
      .ok ([], { σ with code := σ.code ++ segs, pointer := σ.pointer + segsLen segs })

/-- One iteration of the while-loop of kl27_compile on the line just read:
returns the lines to splice at the cursor and the updated state, or the
fatal error.  Branch order follows the source: strip, blank, comment,
preprocessor directive, label, auto-main, instruction. -/
def stepLine (fs : String → Option (List String)) (args : Args)
    (line0 : String) (σ : ScanState) : Except Nat (List String × ScanState) :=
  let line := trimStr line0
  if line = "" then .ok ([], σ)
  else if startsWithStr line "//" then .ok ([], σ)
  else if startsWithStr line "#" then
    if strTail ((splitOnSpace line).headD "") = "include" then
      match (splitWS line).drop 1 with
      | [] => .error 2
      | second :: _ =>
        match fs second with
        | none => .error 2
        | some fileLines =>
          .ok ((processInclude fileLines σ.includes).spliced,
               { σ with includes := (processInclude fileLines σ.includes).includes })
    else .error 1
  else if endsWithStr line ":" then
    .ok ([], { σ with current_label := some (dropLastStr line),
                      label_table := labelDeclare σ.label_table (dropLastStr line) σ.pointer })
  else
    match σ.current_label with
    | some _ => execInstr line σ
    | none =>
      if args.no_automatic_main then .error 1
      else execInstr line { σ with current_label := some "main",
                                   label_table := labelDeclare σ.label_table "main" σ.pointer }

/-- The while-loop of kl27_compile: read the next unprocessed line, step,
splice the returned lines at the cursor (prepend to the unread suffix),
repeat until the suffix is exhausted.  fuel bounds the number of
iterations; 99 marks exhaustion. -/
def runLoop (fs : String → Option (List String)) (args : Args) :
    Nat → List String → ScanState → Except Nat ScanState
  | _, [], σ => .ok σ
  | 0, _ :: _, _ => .error 99
  | fuel + 1, line :: rest, σ =>
    match stepLine fs args line σ with
    | .error e => .error e
    | .ok (ins, σ') => runLoop fs args fuel (ins ++ rest) σ'

/-- struct.pack(">hi", id, addr): big-endian signed 2-byte and 4-byte
fields; values outside the (here always non-negative) signed ranges raise
struct.error, modelled none. -/
def packHI (id addr : Nat) : Option (List Nat) :=
  if id < 32768 ∧ addr < 2147483648 then some (be2 id ++ be4 addr) else none

/-- The per-label records of the final label table, in declaration order. -/
def packRecords : List (String × Nat × Nat) → Option (List (List Nat))
  | [] => some []
  | e :: r => (packHI e.2.1 e.2.2).bind fun b => (packRecords r).map fun bs => b :: bs

/-- final_label_table: the two-byte entry count, the packed records, and
the trailing six 0xff bytes, joined. -/
def buildLabelTable (tbl : List (String × Nat × Nat)) : Option (List Nat) :=
  (toBytes2N tbl.length).bind fun cnt =>
    (packRecords tbl).map fun recs => cnt ++ recs.flatten ++ List.replicate 6 255

/-- Everything kl27_compile does after the scan loop: entry-point check
(explicit return 1), label-table generation, fix_jumps, header assembly
(magic "KL27", version 1, compression 0, 4-byte entry address, stack size
4, zero checksum) and the final write.  The output file is opened and
written only on the .ok path; .error 1 is the explicit failure return and
.error 2 an uncaught exception, both before any byte reaches the output
path. -/
def finalize (args : Args) (σ : ScanState) : Except Nat (List Nat) :=
  match lookupLabel σ.label_table args.entry_point with
  | none => .error 1
  | some entry =>
    match buildLabelTable σ.label_table with
    | none => .error 2
    | some tableBytes =>
      match fixJumps σ.label_table σ.code with
      | none => .error 2
      | some resolved =>
        match toBytes4N entry.2 with
        | none => .error 2
        | some entryBytes =>
          .ok (([75, 76, 50, 55] ++ [1] ++ [0] ++ entryBytes ++ [0, 4] ++ [0, 0, 0, 0])
               ++ tableBytes ++ resolved.flatten)

/-- kl27_compile on an already split source-line list: run the scan loop
from the initial state, then finalize.  The .ok value is the byte content
written to the output file. -/
def kl27c (fuel : Nat) (fs : String → Option (List String)) (args : Args)
    (lines : List String) : Except Nat (List Nat) :=
  match runLoop fs args fuel lines initState with
  | .error e => .error e
  | .ok σ => finalize args σ

/-- A directive line that includes path p: the branch conditions stepLine
tests on its way to the include handler, stated of the line itself. -/
def isIncludeLineFor (line p : String) : Prop :=
  trimStr line ≠ "" ∧
  startsWithStr (trimStr line) "//" = false ∧
  startsWithStr (trimStr line) "#" = true ∧
  strTail ((splitOnSpace (trimStr line)).headD "") = "include" ∧
  (splitWS (trimStr line)).drop 1 ≠ [] ∧
  ((splitWS (trimStr line)).drop 1).headD "" = p

instance (line p : String) : Decidable (isIncludeLineFor line p) := by
  unfold isIncludeLineFor
  infer_instance

deriving instance DecidableEq for Except

/-- Helper for the label-table induction: the table produced by declaring
a list of fresh labels, with sequence ids counting up from k. -/
def buildFresh : Nat → List (String × Nat) → List (String × Nat × Nat)
  | _, [] => []
  | k, d :: r => (d.1, k, d.2) :: buildFresh (k + 1) r

/-- Filesystem with no files, for programs without includes. -/
def fsEmpty : String → Option (List String) :=
  fun _ => none

/-- Test filesystem: lib.klt carries an ID directive, lib2.klt does not. -/
def fsLib : String → Option (List String) :=
  fun p =>
    if p = "lib.klt" then some ["#ID lib", "dep:", "hlt"]
    else if p = "lib2.klt" then some ["nop", "hlt"] else none

/-- Default arguments: entry point main, automatic main enabled. -/
def argsD : Args :=
  ⟨"main", false⟩

/-- Arguments selecting a nonexistent entry point. -/
def argsFoo : Args :=
  ⟨"foo", false⟩

/-- Post-scan state of the two-instruction example program
main: sl 5; hlt. -/
def sigmaC1 : ScanState :=
  ⟨8, [("main", 0, 0)],
   [.bytes [0, 2], .bytes [0, 5], .bytes [0, 1], .bytes [0, 0]], [], some "main"⟩

/-- The module the emitter writes for sigmaC1. -/
def moduleC1 : List Nat :=
  [75, 76, 50, 55, 1, 0, 0, 0, 0, 0, 0, 4, 0, 0, 0, 0,
   0, 1, 0, 0, 0, 0, 0, 0, 255, 255, 255, 255, 255, 255,
   0, 2, 0, 5, 0, 1, 0, 0]

/-- Post-scan state with two labels, main at 0 and end at 4. -/
def sigmaC10 : ScanState :=
  ⟨8, [("main", 0, 0), ("end", 1, 4)],
   [.bytes [0, 1, 0, 0], .bytes [0, 0, 0, 0]], [], some "end"⟩

/-- The module the emitter writes for sigmaC10. -/
def moduleC10 : List Nat :=
  [75, 76, 50, 55, 1, 0, 0, 0, 0, 0, 0, 4, 0, 0, 0, 0,
   0, 2, 0, 0, 0, 0, 0, 0, 0, 1, 0, 0, 0, 4,
   255, 255, 255, 255, 255, 255, 0, 1, 0, 0, 0, 0, 0, 0]

/-- Mid-scan state in which lib.klt has already been included. -/
def sigmaC6W : ScanState :=
  ⟨0, [("main", 0, 0)], [], ["lib"], some "main"⟩

/-- Post-scan state of main: hlt, used for the entry-point check. -/
def sigmaC8 : ScanState :=
  ⟨4, [("main", 0, 0)], [.bytes [0, 1, 0, 0]], [], some "main"⟩

/-- Two-label table for the fixup tests. -/
def tblC2 : List (String × Nat × Nat) :=
  [("a", 0, 0), ("b", 1, 4)]

/-- Code with a forward and a backward reference to the same label. -/
def codeC2 : List Segment :=
  [.placeholder "b", .bytes [0, 0], .placeholder "b"]

/-- Evaluation of stepLine on a well-formed include directive: the spliced
lines and the include-guard update are exactly what processInclude
computes on the included file's lines. -/
theorem stepLine_include (fs : String → Option (List String)) (args : Args)
    (line p : String) (σ : ScanState) (hil : isIncludeLineFor line p)
    (fl : List String) (hfs : fs p = some fl) :
    stepLine fs args line σ =
      .ok ((processInclude fl σ.includes).spliced,
           { σ with includes := (processInclude fl σ.includes).includes }) := by
  obtain ⟨h1, h2, h3, h4, h5, h6⟩ := hil
  unfold stepLine
  rw [if_neg h1, if_neg (by simp [h2]), if_pos (by simp [h3]), if_pos h4]
  cases hd : (splitWS (trimStr line)).drop 1 with
  | nil => exact absurd hd h5
  | cons a t =>
    have ha : a = p := by rw [hd] at h6; simpa using h6
    subst ha
    simp [hfs]

/-- C3 (code_bug): the compile_jmpl encoder never returns the advertised
llbl-plus-jmpa expansion: the Python function builds it in a local but
falls off the end, returning None, and a program using jmpl makes the
driver crash (uncaught TypeError in code.extend, modelled error 2) instead
of emitting 8 bytes of code segments. -/
theorem C3_jmpl_returns_none :
    (∀ line : String, compile_jmpl line = none) ∧
    kl27c 20 fsEmpty argsD ["main:", "jmpl end", "end:", "hlt"] = .error 2 := by
  exact ⟨fun _ => rfl, rfl⟩

/-- C4 (confirmed): for every label operand, compile_jmpr returns the five
primitive units rgr PC, add 16, rgw R7, llbl label, jmpa, totalling
exactly 20 bytes, and the add literal 16 equals the byte length of the
units that follow the initial rgr PC, so the computed return address lands
exactly past the 20-byte expansion. -/
theorem C4_jmpr_expansion (lbl : String) :
    compile_jmpr lbl =
      some ([.bytes [0, 17], .bytes (be2 10)] ++ [.bytes [0, 48], .bytes [0, 16]] ++
            [.bytes [0, 16], .bytes (be2 7)] ++ [.bytes [0, 4], .placeholder lbl] ++
            [.bytes [0, 35], .bytes [0, 0]]) ∧
    segsLen ((compile_jmpr lbl).getD []) = 20 ∧
    segsLen (((compile_jmpr lbl).getD []).drop 2) = 16 ∧
    be2 (segsLen (((compile_jmpr lbl).getD []).drop 2)) = [0, 16] := by
  refine ⟨rfl, ?_, ?_, ?_⟩ <;> simp [compile_jmpr, segsLen, segLen, be2]

/-- C7 counterexample: including lib2.klt, whose first line nop bears no
ID directive, splices only the tail of the file: the first line nop is
consumed by the ID probe and never reaches the line stream, refuting the
claim that every line of the file, including its first line, is spliced. -/
theorem C7_first_line_cex :
    stepLine fsLib argsD "#include lib2.klt" initState = .ok (["hlt"], initState) ∧
    (processInclude ["nop", "hlt"] []).spliced ≠ ["nop", "hlt"] ∧
    (processInclude ["nop", "hlt"] []).warned = true := by
  exact ⟨rfl, by decide, by decide⟩

/-- C7 amended (corrected): for an included file whose first line does not
begin with an ID directive, the assembler flags the non-fatal warning and
inclusion still proceeds, but only the lines after the first are spliced
into the line stream at the scan position; the first line is consumed by
the ID probe. -/
theorem C7_include_no_id_amended :
    (∀ first rest includes, strTake first 3 ≠ "#ID" →
      processInclude (first :: rest) includes = ⟨includes, rest, true⟩) ∧
    (∀ (fs : String → Option (List String)) (args : Args) (line p : String)
       (σ : ScanState) (first : String) (fileRest : List String),
       isIncludeLineFor line p → fs p = some (first :: fileRest) →
       strTake first 3 ≠ "#ID" →
       stepLine fs args line σ = .ok (fileRest, σ)) := by
  constructor
  · intro first rest includes h
    simp [processInclude, h]
  · intro fs args line p σ first fileRest hil hfs h
    rw [stepLine_include fs args line p σ hil _ hfs]
    simp [processInclude, h]

/-- Witness for C7 amended at a concrete file without an ID line. -/
theorem C7_include_no_id_witness :
    processInclude ["nop", "hlt"] ["lib"] = ⟨["lib"], ["hlt"], true⟩ ∧
    stepLine fsLib argsD "#include lib2.klt" sigmaC6W = .ok (["hlt"], sigmaC6W) := by
  exact ⟨C7_include_no_id_amended.1 "nop" ["hlt"] ["lib"] (by decide),
         C7_include_no_id_amended.2 fsLib argsD "#include lib2.klt" "lib2.klt" sigmaC6W
           "nop" ["hlt"] (by decide) rfl (by decide)⟩

/-- C5 counterexample: declaring A, B, then A again and C gives the three
live entries A, B, C the sequence ids 2, 1, 2 — the redeclaration of A
reassigns it the current table size, which then collides with C's id — so
the live entries neither carry distinct ids nor form 0..n-1. -/
theorem C5_seq_ids_cex :
    ((declareAll [("A", 0), ("B", 0), ("A", 4), ("C", 8)]).map fun e => e.2.1) = [2, 1, 2] ∧
    ¬ ((declareAll [("A", 0), ("B", 0), ("A", 4), ("C", 8)]).map fun e => e.2.1).Nodup ∧
    ((declareAll [("A", 0), ("B", 0), ("A", 4), ("C", 8)]).map fun e => e.2.1) ≠
      List.range (declareAll [("A", 0), ("B", 0), ("A", 4), ("C", 8)]).length := by
  refine ⟨by decide, by decide, by decide⟩

/-- Declaring a name absent from the table appends a fresh entry whose
sequence id is the current table size. -/
theorem labelDeclare_fresh (tbl : List (String × Nat × Nat)) (name : String) (ptr : Nat)
    (h : ∀ e ∈ tbl, e.1 ≠ name) :
    labelDeclare tbl name ptr = tbl ++ [(name, tbl.length, ptr)] := by
  have hc : ¬ (tbl.any (fun e => e.1 == name) = true) := by
    rw [List.any_eq_true]
    rintro ⟨e, he, hb⟩
    exact h e he (by simpa using hb)
  unfold labelDeclare
  rw [if_neg hc]

/-- labelDeclare keeps the name sequence unchanged when overwriting and
appends the new name when fresh. -/
theorem labelDeclare_names (tbl : List (String × Nat × Nat)) (name : String) (ptr : Nat) :
    (labelDeclare tbl name ptr).map (fun e => e.1) =
      if tbl.any (fun e => e.1 == name) then tbl.map (fun e => e.1)
      else tbl.map (fun e => e.1) ++ [name] := by
  unfold labelDeclare
  split
  · rw [List.map_map]
    apply List.map_congr_left
    intro e _
    by_cases h : e.1 = name
    · simp [h]
    · simp [h]
  · simp

/-- Scanning any declaration list through labelDeclare preserves
duplicate-freedom of the table's names. -/
theorem foldl_names_nodup (ds : List (String × Nat)) :
    ∀ t : List (String × Nat × Nat), (t.map fun e => e.1).Nodup →
      ((ds.foldl (fun t d => labelDeclare t d.1 d.2) t).map fun e => e.1).Nodup := by
  induction ds with
  | nil => intro t h; simpa using h
  | cons d r ih =>
    intro t h
    simp only [List.foldl_cons]
    apply ih
    rw [labelDeclare_names]
    split
    · exact h
    · rename_i hc
      have hnm : d.1 ∉ t.map (fun e => e.1) := by
        intro hm
        apply hc
        rw [List.any_eq_true]
        obtain ⟨e, he, h1⟩ := List.mem_map.mp hm
        exact ⟨e, he, by simp [h1]⟩
      simp [List.nodup_append, h, hnm]

/-- The sequence ids of a freshly built table block count up from k. -/
theorem buildFresh_ids (ds : List (String × Nat)) :
    ∀ k, (buildFresh k ds).map (fun e => e.2.1) = List.range' k ds.length := by
  induction ds with
  | nil => intro k; simp [buildFresh]
  | cons d r ih => intro k; simp [buildFresh, ih, List.range'_succ]

/-- The names of a freshly built table block are the declared names. -/
theorem buildFresh_names (ds : List (String × Nat)) :
    ∀ k, (buildFresh k ds).map (fun e => e.1) = ds.map Prod.fst := by
  induction ds with
  | nil => intro k; simp [buildFresh]
  | cons d r ih => intro k; simp [buildFresh, ih]

/-- Folding duplicate-free declarations over a table none of them touches
appends one fresh entry per declaration, ids counting up from the table's
size. -/
theorem declareAll_go (ds : List (String × Nat)) :
    ∀ t : List (String × Nat × Nat),
      (∀ d ∈ ds, ∀ e ∈ t, e.1 ≠ d.1) → (ds.map Prod.fst).Nodup →
      ds.foldl (fun t d => labelDeclare t d.1 d.2) t = t ++ buildFresh t.length ds := by
  induction ds with
  | nil => intro t _ _; simp [buildFresh]
  | cons d r ih =>
    intro t hfresh hnd
    simp only [List.foldl_cons]
    rw [labelDeclare_fresh t d.1 d.2 (fun e he => hfresh d (List.mem_cons_self _ _) e he)]
    have h1 : ∀ q ∈ r, ∀ e ∈ t ++ [(d.1, t.length, d.2)], e.1 ≠ q.1 := by
      intro q hq e he
      rcases List.mem_append.mp he with he' | he'
      · exact hfresh q (List.mem_cons_of_mem _ hq) e he'
      · have heq : e = (d.1, t.length, d.2) := by simpa using he'
        subst heq
        intro hcontra
        have hm : q.1 ∈ r.map Prod.fst := List.mem_map_of_mem _ hq
        rw [← hcontra] at hm
        exact (List.nodup_cons.mp hnd).1 hm
    have h2 : (r.map Prod.fst).Nodup := (List.nodup_cons.mp hnd).2
    rw [ih _ h1 h2]
    simp [buildFresh, List.append_assoc]

/-- C5 amended (corrected): the symbol table always holds exactly one live
entry per name, and when no label name is redeclared the n entries carry
the distinct sequence ids 0..n-1 in insertion order; a redeclaration
however reassigns that label's id to the current table size, which can
collide with another label's id (see the counterexample). -/
theorem C5_seq_ids_amended :
    (∀ ds : List (String × Nat), ((declareAll ds).map fun e => e.1).Nodup) ∧
    (∀ ds : List (String × Nat), (ds.map Prod.fst).Nodup →
      ((declareAll ds).map fun e => e.2.1) = List.range ds.length ∧
      ((declareAll ds).map fun e => e.1) = ds.map Prod.fst) := by
  constructor
  · intro ds
    exact foldl_names_nodup ds [] (by simp)
  · intro ds hnd
    unfold declareAll
    rw [declareAll_go ds [] (by simp) hnd]
    simp [buildFresh_ids, buildFresh_names, List.range_eq_range']

/-- Witness for C5 amended on a concrete duplicate-free program. -/
theorem C5_seq_ids_witness :
    ((declareAll [("x", 0), ("y", 4)]).map fun e => e.2.1) = List.range 2 ∧
    ((declareAll [("x", 0), ("y", 4)]).map fun e => e.1) = ["x", "y"] := by
  exact C5_seq_ids_amended.2 [("x", 0), ("y", 4)] (by decide)

/-- Pointwise characterisation of a successful fixup pass: positions are
preserved and every output element is the resolution of the segment at
the same position. -/
theorem fixJumps_spec (tbl : List (String × Nat × Nat)) :
    ∀ (code : List Segment) (out : List (List Nat)), fixJumps tbl code = some out →
      out.length = code.length ∧
      ∀ i (hi : i < code.length), resolveSeg tbl (code.get ⟨i, hi⟩) = some (out.getD i []) := by
  intro code
  induction code with
  | nil =>
    intro out h
    simp only [fixJumps, Option.some.injEq] at h
    subst h
    exact ⟨rfl, fun i hi => absurd hi (by simp)⟩
  | cons s r ih =>
    intro out h
    simp only [fixJumps] at h
    cases hb : resolveSeg tbl s with
    | none => rw [hb] at h; simp at h
    | some b =>
      rw [hb] at h
      cases hr : fixJumps tbl r with
      | none => rw [hr] at h; simp at h
      | some bs =>
        rw [hr] at h
        simp only [Option.some_bind, Option.map_some', Option.some.injEq] at h
        subst h
        obtain ⟨hlen, hres⟩ := ih bs hr
        refine ⟨by simp [hlen], ?_⟩
        intro i hi
        cases i with
        | zero => simpa using hb
        | succ j =>
          have hj : j < r.length := by simpa using hi
          simpa using hres j hj

/-- Resolution only reads the name and sequence-id fields of the table:
rewriting every address leaves the lookup used by resolve unchanged. -/
theorem lookupLabel_addr_irrel (f : String × Nat × Nat → Nat) :
    ∀ (tbl : List (String × Nat × Nat)) (L : String),
      (lookupLabel (tbl.map fun e => (e.1, e.2.1, f e)) L).map Prod.fst =
        (lookupLabel tbl L).map Prod.fst := by
  intro tbl L
  induction tbl with
  | nil => rfl
  | cons e r ih =>
    simp only [List.map_cons, lookupLabel]
    by_cases h : e.1 = L
    · simp [h]
    · simp [h, ih]

/-- The whole fixup pass is invariant under rewriting the address field of
every table entry. -/
theorem fixJumps_addr_irrel (tbl : List (String × Nat × Nat))
    (f : String × Nat × Nat → Nat) :
    ∀ code : List Segment,
      fixJumps (tbl.map fun e => (e.1, e.2.1, f e)) code = fixJumps tbl code := by
  have hres : ∀ s, resolveSeg (tbl.map fun e => (e.1, e.2.1, f e)) s = resolveSeg tbl s := by
    intro s
    cases s with
    | bytes bs => rfl
    | placeholder L =>
      simp only [resolveSeg]
      have := lookupLabel_addr_irrel f tbl L
      cases h1 : lookupLabel (tbl.map fun e => (e.1, e.2.1, f e)) L with
      | none =>
        rw [h1] at this
        cases h2 : lookupLabel tbl L with
        | none => rfl
        | some v => rw [h2] at this; simp at this
      | some v =>
        rw [h1] at this
        cases h2 : lookupLabel tbl L with
        | none => rw [h2] at this; simp at this
        | some w =>
          rw [h2] at this
          simp only [Option.map_some', Option.some.injEq] at this
          simp [this]
  intro code
  induction code with
  | nil => rfl
  | cons s r ih => simp only [fixJumps, hres, ih]

/-- C2 (confirmed): a successful fixup walks the code list once, position
by position: concrete byte strings pass through unchanged, every
placeholder is replaced by the referenced label's sequence id as two
big-endian bytes — the table's address field is irrelevant to the output —
and hence any two references to the same label, forward or backward,
produce identical on-disk jump-target bytes. -/
theorem C2_fixup_seq_id (tbl : List (String × Nat × Nat)) (code : List Segment)
    (out : List (List Nat)) (h : fixJumps tbl code = some out) :
    out.length = code.length ∧
    (∀ i (hi : i < code.length) bs, code.get ⟨i, hi⟩ = .bytes bs → out.getD i [] = bs) ∧
    (∀ i (hi : i < code.length) L, code.get ⟨i, hi⟩ = .placeholder L →
      ∃ s a, lookupLabel tbl L = some (s, a) ∧ s < 65536 ∧ out.getD i [] = be2 s) ∧
    (∀ f : String × Nat × Nat → Nat,
      fixJumps (tbl.map fun e => (e.1, e.2.1, f e)) code = some out) ∧
    (∀ i j (hi : i < code.length) (hj : j < code.length) (L : String),
      code.get ⟨i, hi⟩ = .placeholder L → code.get ⟨j, hj⟩ = .placeholder L →
      out.getD i [] = out.getD j []) := by
  obtain ⟨hlen, hres⟩ := fixJumps_spec tbl code out h
  have hph : ∀ i (hi : i < code.length) L, code.get ⟨i, hi⟩ = .placeholder L →
      ∃ s a, lookupLabel tbl L = some (s, a) ∧ s < 65536 ∧ out.getD i [] = be2 s := by
    intro i hi L hseg
    have hr := hres i hi
    rw [hseg] at hr
    simp only [resolveSeg] at hr
    cases hl : lookupLabel tbl L with
    | none => rw [hl] at hr; simp at hr
    | some e =>
      rw [hl] at hr
      simp only [Option.some_bind, toBytes2N] at hr
      split at hr
      · rename_i hlt
        refine ⟨e.1, e.2, by simp [hl], hlt, ?_⟩
        simpa using hr.symm
      · simp at hr
  refine ⟨hlen, ?_, hph, ?_, ?_⟩
  · intro i hi bs hseg
    have hr := hres i hi
    rw [hseg] at hr
    simp only [resolveSeg, Option.some.injEq] at hr
    exact hr.symm
  · intro f
    rw [fixJumps_addr_irrel tbl f code]
    exact h
  · intro i j hi hj L hsi hsj
    obtain ⟨s1, a1, hl1, _, ho1⟩ := hph i hi L hsi
    obtain ⟨s2, a2, hl2, _, ho2⟩ := hph j hj L hsj
    rw [hl1] at hl2
    have hs : s1 = s2 := congrArg Prod.fst (Option.some.inj hl2)
    rw [ho1, ho2, hs]

/-- Witness for C2 on concrete code with a forward and a backward
reference to label b: both resolve to the same two bytes. -/
theorem C2_fixup_seq_id_witness :
    ([[0, 1], [0, 0], [0, 1]] : List (List Nat)).getD 0 [] =
      ([[0, 1], [0, 0], [0, 1]] : List (List Nat)).getD 2 [] := by
  exact (C2_fixup_seq_id tblC2 codeC2 [[0, 1], [0, 0], [0, 1]] rfl).2.2.2.2
    0 2 (by decide) (by decide) "b" rfl rfl

/-- C8 (confirmed): when the configured entry-point label is absent from
the symbol table after the scan, kl27_compile takes the explicit
return-1 path before the label table, fixup, header or output write ever
run; in particular no ok result — the only path that opens and writes the
output file — is possible, and a full run of a program lacking the entry
point ends in the fatal error 1. -/
theorem C8_missing_entry :
    (∀ (args : Args) (σ : ScanState),
       lookupLabel σ.label_table args.entry_point = none →
       finalize args σ = .error 1 ∧ ∀ m, finalize args σ ≠ .ok m) ∧
    kl27c 20 fsEmpty argsFoo ["main:", "hlt"] = .error 1 := by
  constructor
  · intro args σ h
    have hf : finalize args σ = .error 1 := by
      unfold finalize
      rw [h]
    refine ⟨hf, ?_⟩
    intro m hm
    rw [hf] at hm
    cases hm
  · rfl

/-- Witness for C8 at a concrete table lacking the entry point foo. -/
theorem C8_missing_entry_witness :
    finalize argsFoo sigmaC8 = .error 1 ∧ ∀ m, finalize argsFoo sigmaC8 ≠ .ok m := by
  exact C8_missing_entry.1 argsFoo sigmaC8 rfl

/-- C9 (confirmed): for the literal-operand encoders sl, spop and add,
given that the operand text parses to the literal v, encoding succeeds
exactly when 0 <= v < 65536: in range the two-byte big-endian conversion
never fails and sl emits the literal's two bytes, while any literal
outside the range (negative or at least 2^16) makes the encoder fail
instead of emitting truncated bytes. -/
theorem C9_literal_range (line : String) (v : Int) (h : parseIntPy line = some v) :
    ((compile_sl line).isSome ↔ 0 ≤ v ∧ v < 65536) ∧
    ((compile_spop line).isSome ↔ 0 ≤ v ∧ v < 65536) ∧
    ((compile_add line).isSome ↔ 0 ≤ v ∧ v < 65536) ∧
    (0 ≤ v → v < 65536 → compile_sl line = some [.bytes [0, 2], .bytes (be2 v.toNat)]) := by
  have hne : line ≠ "" := by
    intro he
    rw [he] at h
    have hn : parseIntPy "" = none := rfl
    rw [hn] at h
    cases h
  have hiff : (toBytes2I v).isSome ↔ 0 ≤ v ∧ v < 65536 := by
    unfold toBytes2I
    split
    · rename_i hc; simpa using hc
    · rename_i hc; simpa using hc
  have hsl : compile_sl line = (toBytes2I v).map fun b => [Segment.bytes [0, 2], Segment.bytes b] := by
    unfold compile_sl
    rw [h]
    rfl
  have hspop : compile_spop line =
      (toBytes2I v).map fun b => [Segment.bytes [0, 3], Segment.bytes b] := by
    unfold compile_spop
    rw [if_neg hne, h]
    rfl
  have hadd : compile_add line =
      (toBytes2I v).map fun b => [Segment.bytes [0, 48], Segment.bytes b] := by
    unfold compile_add
    rw [if_neg hne, h]
    rfl
  refine ⟨?_, ?_, ?_, ?_⟩
  · rw [hsl]; simpa [Option.isSome_map] using hiff
  · rw [hspop]; simpa [Option.isSome_map] using hiff
  · rw [hadd]; simpa [Option.isSome_map] using hiff
  · intro h0 h1
    rw [hsl]
    unfold toBytes2I
    rw [if_pos ⟨h0, h1⟩]
    rfl

/-- Witness for C9 at the in-range literal 5 and the out-of-range
literal 70000. -/
theorem C9_literal_range_witness :
    ((compile_sl "5").isSome ↔ 0 ≤ (5 : Int) ∧ (5 : Int) < 65536) ∧
    ((compile_sl "70000").isSome ↔ 0 ≤ (70000 : Int) ∧ (70000 : Int) < 65536) := by
  exact ⟨(C9_literal_range "5" 5 (by decide)).1,
         (C9_literal_range "70000" 70000 (by decide)).1⟩

/-- Inversion for the two-byte length encoder. -/
theorem toBytes2N_inv (n : Nat) (b : List Nat) (h : toBytes2N n = some b) :
    n < 65536 ∧ b = be2 n := by
  unfold toBytes2N at h
  split at h
  · exact ⟨by assumption, (Option.some.inj h).symm⟩
  · cases h

/-- Inversion for the four-byte length encoder. -/
theorem toBytes4N_inv (n : Nat) (b : List Nat) (h : toBytes4N n = some b) :
    n < 4294967296 ∧ b = be4 n := by
  unfold toBytes4N at h
  split at h
  · exact ⟨by assumption, (Option.some.inj h).symm⟩
  · cases h

/-- Pointwise characterisation of successfully packed label records: one
six-byte record per table entry, in order, each the big-endian id and
address. -/
theorem packRecords_spec :
    ∀ (tbl : List (String × Nat × Nat)) (recs : List (List Nat)),
      packRecords tbl = some recs →
      recs.length = tbl.length ∧
      (∀ r ∈ recs, r.length = 6) ∧
      (∀ i, i < tbl.length →
        recs.getD i [] =
          be2 ((tbl.getD i ("", 0, 0)).2.1) ++ be4 ((tbl.getD i ("", 0, 0)).2.2)) := by
  intro tbl
  induction tbl with
  | nil =>
    intro recs h
    simp only [packRecords, Option.some.injEq] at h
    subst h
    exact ⟨rfl, by simp, fun i hi => absurd hi (by simp)⟩
  | cons e r ih =>
    intro recs h
    simp only [packRecords] at h
    cases hb : packHI e.2.1 e.2.2 with
    | none => rw [hb] at h; cases h
    | some b =>
      rw [hb] at h
      cases hr : packRecords r with
      | none => rw [hr] at h; cases h
      | some bs =>
        rw [hr] at h
        simp only [Option.some_bind, Option.map_some', Option.some.injEq] at h
        subst h
        obtain ⟨hlen, hmem, hidx⟩ := ih bs hr
        have hb6 : b = be2 e.2.1 ++ be4 e.2.2 := by
          unfold packHI at hb
          split at hb
          · exact (Option.some.inj hb).symm
          · cases hb
        refine ⟨by simp [hlen], ?_, ?_⟩
        · intro x hx
          rcases List.mem_cons.mp hx with hx | hx
          · subst hx; rw [hb6]; rfl
          · exact hmem x hx
        · intro i hi
          cases i with
          | zero => simpa using hb6
          | succ j =>
            have hj : j < r.length := by simpa using hi
            simpa using hidx j hj

/-- The concatenation of uniformly six-byte records has length six times
their count. -/
theorem flatten_len6 :
    ∀ recs : List (List Nat), (∀ r ∈ recs, r.length = 6) →
      recs.flatten.length = 6 * recs.length := by
  intro recs
  induction recs with
  | nil => intro _; simp
  | cons r t ih =>
    intro h
    simp only [List.flatten_cons, List.length_append, List.length_cons]
    rw [h r (by simp), ih (fun x hx => h x (by simp [hx]))]
    ring

/-- Reading six bytes at offset 6i inside the concatenation of six-byte
records recovers record i, whatever follows the records. -/
theorem flatten_block :
    ∀ (recs : List (List Nat)) (tail : List Nat) (i : Nat),
      (∀ r ∈ recs, r.length = 6) → i < recs.length →
      List.take 6 (List.drop (6 * i) (recs.flatten ++ tail)) = recs.getD i [] := by
  intro recs
  induction recs with
  | nil => intro tail i _ hi; simp at hi
  | cons r t ih =>
    intro tail i hall hi
    cases i with
    | zero =>
      simp only [Nat.mul_zero, List.drop_zero, List.flatten_cons, List.getD_cons_zero]
      rw [List.append_assoc]
      exact List.take_left' (hall r (by simp))
    | succ j =>
      have h6 : 6 * (j + 1) = r.length + 6 * j := by rw [hall r (by simp)]; ring
      simp only [List.flatten_cons, List.getD_cons_succ]
      rw [List.append_assoc, h6, List.drop_append]
      exact ih tail j (fun x hx => hall x (by simp [hx])) (by simpa using hi)

/-- Successful emission decomposed: the written module is the 16-byte
header, the two-byte entry count, the packed records, the six-byte 0xff
terminator and the resolved code, in that order. -/
theorem finalize_ok_decomp (args : Args) (σ : ScanState) (m : List Nat)
    (h : finalize args σ = .ok m) :
    ∃ (entry : Nat × Nat) (recs : List (List Nat)) (resolved : List (List Nat)),
      lookupLabel σ.label_table args.entry_point = some entry ∧
      σ.label_table.length < 65536 ∧
      packRecords σ.label_table = some recs ∧
      fixJumps σ.label_table σ.code = some resolved ∧
      entry.2 < 4294967296 ∧
      m = ([75, 76, 50, 55] ++ [1] ++ [0] ++ be4 entry.2 ++ [0, 4] ++ [0, 0, 0, 0])
          ++ (be2 σ.label_table.length ++ recs.flatten ++ List.replicate 6 255)
          ++ resolved.flatten := by
  unfold finalize at h
  split at h
  · simp at h
  · rename_i entry hl
    split at h
    · simp at h
    · rename_i tb ht
      split at h
      · simp at h
      · rename_i resolved hf
        split at h
        · simp at h
        · rename_i eb he
          simp only [Except.ok.injEq] at h
          unfold buildLabelTable at ht
          cases hc : toBytes2N σ.label_table.length with
          | none => rw [hc] at ht; simp at ht
          | some cnt =>
            rw [hc] at ht
            cases hr : packRecords σ.label_table with
            | none => rw [hr] at ht; simp at ht
            | some recs =>
              rw [hr] at ht
              simp only [Option.some_bind, Option.map_some', Option.some.injEq] at ht
              obtain ⟨hn, hcnt⟩ := toBytes2N_inv _ _ hc
              obtain ⟨hev, heb⟩ := toBytes4N_inv _ _ he
              subst hcnt
              subst heb
              subst ht
              exact ⟨entry, recs, resolved, hl, hn, rfl, hf, hev, h.symm⟩

/-- C10 (confirmed): in every module the emitter actually writes, the
label-table region consists of a 2-byte big-endian entry count at byte
offset 16, the n 6-byte records from offset 18, then a trailing 6-byte
0xff terminator sitting between the last record and the first code byte,
with the resolved code section starting at offset 24 + 6n. -/
theorem C10_emitted_layout (args : Args) (σ : ScanState) (m : List Nat)
    (h : finalize args σ = .ok m) :
    List.take 2 (List.drop 16 m) = be2 σ.label_table.length ∧
    (∀ i, i < σ.label_table.length →
      List.take 6 (List.drop (18 + 6 * i) m) =
        be2 ((σ.label_table.getD i ("", 0, 0)).2.1) ++
          be4 ((σ.label_table.getD i ("", 0, 0)).2.2)) ∧
    List.take 6 (List.drop (18 + 6 * σ.label_table.length) m) = List.replicate 6 255 ∧
    (∃ resolved, fixJumps σ.label_table σ.code = some resolved ∧
      List.drop (24 + 6 * σ.label_table.length) m = resolved.flatten) := by
  obtain ⟨entry, recs, resolved, hl, hn, hr, hf, hev, hm⟩ := finalize_ok_decomp args σ m h
  obtain ⟨hrl, hr6, hri⟩ := packRecords_spec _ _ hr
  have hheadlen :
      ([75, 76, 50, 55] ++ [1] ++ [0] ++ be4 entry.2 ++ [0, 4] ++ [0, 0, 0, 0] : List Nat).length
        = 16 := by
    simp [be4]
  have hdrop16 : List.drop 16 m =
      be2 σ.label_table.length ++ (recs.flatten ++ (List.replicate 6 255 ++ resolved.flatten)) := by
    rw [hm, List.append_assoc, List.drop_left' hheadlen]
    simp [List.append_assoc]
  have hfl : recs.flatten.length = 6 * σ.label_table.length := by
    rw [flatten_len6 recs hr6, hrl]
  have hdropTable : List.drop (18 + 6 * σ.label_table.length) m =
      List.replicate 6 255 ++ resolved.flatten := by
    rw [show 18 + 6 * σ.label_table.length = 16 + (2 + 6 * σ.label_table.length) by ring,
        ← List.drop_drop, hdrop16,
        show 2 + 6 * σ.label_table.length
            = (be2 σ.label_table.length).length + 6 * σ.label_table.length by simp [be2],
        List.drop_append, ← hfl, List.drop_left]
  refine ⟨?_, ?_, ?_, ?_⟩
  · rw [hdrop16]
    exact List.take_left' (by simp [be2])
  · intro i hi
    rw [show 18 + 6 * i = 16 + (2 + 6 * i) by ring, ← List.drop_drop, hdrop16,
        show 2 + 6 * i = (be2 σ.label_table.length).length + 6 * i by simp [be2],
        List.drop_append, flatten_block recs _ i hr6 (by rw [hrl]; exact hi)]
    exact hri i hi
  · rw [hdropTable]
    exact List.take_left' (by simp)
  · refine ⟨resolved, hf, ?_⟩
    rw [show 24 + 6 * σ.label_table.length = 18 + 6 * σ.label_table.length + 6 by ring,
        ← List.drop_drop, hdropTable, List.drop_left' (by simp)]

/-- Witness for C10 at a concrete two-label module: the second record
sits at offset 24 and reads id 1, address 4. -/
theorem C10_emitted_layout_witness :
    List.take 6 (List.drop 24 moduleC10) = [0, 1, 0, 0, 0, 4] := by
  exact (C10_emitted_layout argsD sigmaC10 moduleC10 rfl).2.1 1 (by decide)

/-- C1 counterexample: on the module emitted for the one-label program
main: sl 5; hlt, the claimed layout — a 4-byte entry count at offset 16
and the code section immediately after the records at offset 26 — does
not hold: the count occupies two bytes and a 6-byte terminator precedes
the code. -/
theorem C1_count_width_cex :
    finalize argsD sigmaC1 = .ok moduleC1 ∧
    ¬ (List.take 4 (List.drop 16 moduleC1) = [0, 0, 0, 1] ∧
       List.drop 26 moduleC1 = [0, 2, 0, 5, 0, 1, 0, 0]) := by
  exact ⟨rfl, by decide⟩

/-- C1 amended (corrected): the label table begins at byte offset 16 with
a 2-byte (not 4-byte) big-endian entry count, followed immediately by the
n 6-byte records of 2-byte id and 4-byte address in declaration order,
followed by a 6-byte 0xff terminator, and only then by the code section. -/
theorem C1_layout_amended (args : Args) (σ : ScanState) (m : List Nat)
    (h : finalize args σ = .ok m) :
    ∃ (recs : List (List Nat)) (resolved : List (List Nat)),
      packRecords σ.label_table = some recs ∧
      fixJumps σ.label_table σ.code = some resolved ∧
      recs.length = σ.label_table.length ∧
      (∀ r ∈ recs, r.length = 6) ∧
      (∀ i, i < σ.label_table.length →
        recs.getD i [] =
          be2 ((σ.label_table.getD i ("", 0, 0)).2.1) ++
            be4 ((σ.label_table.getD i ("", 0, 0)).2.2)) ∧
      m = List.take 16 m ++ be2 σ.label_table.length ++ recs.flatten
          ++ List.replicate 6 255 ++ resolved.flatten ∧
      (List.take 16 m).length = 16 ∧
      (be2 σ.label_table.length).length = 2 := by
  obtain ⟨entry, recs, resolved, hl, hn, hr, hf, hev, hm⟩ := finalize_ok_decomp args σ m h
  obtain ⟨hrl, hr6, hri⟩ := packRecords_spec _ _ hr
  have hheadlen :
      ([75, 76, 50, 55] ++ [1] ++ [0] ++ be4 entry.2 ++ [0, 4] ++ [0, 0, 0, 0] : List Nat).length
        = 16 := by
    simp [be4]
  have htake16 : List.take 16 m =
      [75, 76, 50, 55] ++ [1] ++ [0] ++ be4 entry.2 ++ [0, 4] ++ [0, 0, 0, 0] := by
    rw [hm, List.append_assoc]
    exact List.take_left' hheadlen
  refine ⟨recs, resolved, hr, hf, hrl, hr6, hri, ?_, ?_, by simp [be2]⟩
  · rw [htake16, hm]
    simp [List.append_assoc]
  · rw [htake16]
    exact hheadlen

/-- Witness for C1 amended at the concrete one-label module. -/
theorem C1_layout_witness :
    ∃ (recs : List (List Nat)) (resolved : List (List Nat)),
      packRecords sigmaC1.label_table = some recs ∧
      fixJumps sigmaC1.label_table sigmaC1.code = some resolved ∧
      recs.length = sigmaC1.label_table.length ∧
      (∀ r ∈ recs, r.length = 6) ∧
      (∀ i, i < sigmaC1.label_table.length →
        recs.getD i [] =
          be2 ((sigmaC1.label_table.getD i ("", 0, 0)).2.1) ++
            be4 ((sigmaC1.label_table.getD i ("", 0, 0)).2.2)) ∧
      moduleC1 = List.take 16 moduleC1 ++ be2 sigmaC1.label_table.length ++ recs.flatten
          ++ List.replicate 6 255 ++ resolved.flatten ∧
      (List.take 16 moduleC1).length = 16 ∧
      (be2 sigmaC1.label_table.length).length = 2 := by
  exact C1_layout_amended argsD sigmaC1 moduleC1 rfl

/-- process_include never removes a recorded include-guard identifier. -/
theorem processInclude_mono (fl inc : List String) (x : String) (hx : x ∈ inc) :
    x ∈ (processInclude fl inc).includes := by
  unfold processInclude
  cases fl with
  | nil => exact hx
  | cons first rest =>
    by_cases h1 : strTake first 3 = "#ID"
    · by_cases h2 : sidOf first ∈ inc
      · simp [h1, h2, hx]
      · simp [h1, h2, List.mem_append, hx]
    · simp [h1, hx]

/-- execInstr leaves the include-guard set, the label table and the
current label untouched. -/
theorem execInstr_state (line : String) (σ : ScanState) (ins : List String)
    (σ' : ScanState) (h : execInstr line σ = .ok (ins, σ')) :
    σ'.includes = σ.includes ∧ σ'.label_table = σ.label_table ∧
    σ'.current_label = σ.current_label := by
  unfold execInstr at h
  split at h
  · simp at h
  · split at h
    · simp at h
    · simp only [Except.ok.injEq, Prod.mk.injEq] at h
      obtain ⟨-, h2⟩ := h
      subst h2
      exact ⟨rfl, rfl, rfl⟩

/-- One loop step never removes a recorded include-guard identifier. -/
theorem stepLine_includes_mono (fs : String → Option (List String)) (args : Args)
    (line : String) (σ : ScanState) (ins : List String) (σ' : ScanState)
    (h : stepLine fs args line σ = .ok (ins, σ')) :
    ∀ x ∈ σ.includes, x ∈ σ'.includes := by
  intro x hx
  simp only [stepLine] at h
  by_cases c1 : trimStr line = ""
  · rw [if_pos c1] at h
    simp only [Except.ok.injEq, Prod.mk.injEq] at h
    exact h.2 ▸ hx
  rw [if_neg c1] at h
  by_cases c2 : startsWithStr (trimStr line) "//" = true
  · rw [if_pos c2] at h
    simp only [Except.ok.injEq, Prod.mk.injEq] at h
    exact h.2 ▸ hx
  rw [if_neg c2] at h
  by_cases c3 : startsWithStr (trimStr line) "#" = true
  · rw [if_pos c3] at h
    by_cases c4 : strTail ((splitOnSpace (trimStr line)).headD "") = "include"
    · rw [if_pos c4] at h
      cases hd : (splitWS (trimStr line)).drop 1 with
      | nil =>
        simp only [hd] at h
        exact Except.noConfusion h
      | cons second tail =>
        simp only [hd] at h
        cases hf2 : fs second with
        | none =>
          simp only [hf2] at h
          exact Except.noConfusion h
        | some fileLines =>
          simp only [hf2, Except.ok.injEq, Prod.mk.injEq] at h
          have h2 := h.2
          subst h2
          exact processInclude_mono fileLines σ.includes x hx
    · rw [if_neg c4] at h
      simp at h
  rw [if_neg c3] at h
  by_cases c5 : endsWithStr (trimStr line) ":" = true
  · rw [if_pos c5] at h
    simp only [Except.ok.injEq, Prod.mk.injEq] at h
    have h2 := h.2
    subst h2
    exact hx
  rw [if_neg c5] at h
  cases hcl : σ.current_label with
  | some lab =>
    simp only [hcl] at h
    have := execInstr_state _ _ _ _ h
    rw [this.1]
    exact hx
  | none =>
    simp only [hcl] at h
    by_cases c6 : args.no_automatic_main = true
    · rw [if_pos c6] at h
      simp at h
    · rw [if_neg c6] at h
      have := execInstr_state _ _ _ _ h
      rw [this.1]
      exact hx

/-- Re-including a file whose guard identifier was already recorded is a
complete no-op: nothing is spliced and the state is unchanged. -/
theorem stepLine_dup_include_skip (fs : String → Option (List String)) (args : Args)
    (line p : String) (σ : ScanState) (first : String) (fileRest : List String)
    (hil : isIncludeLineFor line p) (hfs : fs p = some (first :: fileRest))
    (hid : strTake first 3 = "#ID") (hmem : sidOf first ∈ σ.includes) :
    stepLine fs args line σ = .ok ([], σ) := by
  rw [stepLine_include fs args line p σ hil _ hfs]
  simp [processInclude, hid, hmem]

/-- C6 (confirmed): once a guarded file's identifier is in the
include-guard set — as it is after its first inclusion in the same run —
a second include directive for that file splices nothing into the line
stream and leaves the whole scan state untouched, so the remainder of the
compilation, and hence the emitted binary, is exactly that of the same
program with the duplicate include line absent; a concrete double include
produces the identical output module to a single include. -/
theorem C6_reinclude_skip :
    (∀ (fs : String → Option (List String)) (args : Args) (p first line : String)
       (fileRest : List String),
       isIncludeLineFor line p → fs p = some (first :: fileRest) →
       strTake first 3 = "#ID" →
       ∀ (n : Nat) (X post : List String) (σ : ScanState),
         sidOf first ∈ σ.includes →
         runLoop fs args n (X ++ post) σ ≠ .error 99 →
         runLoop fs args (n + 1) (X ++ line :: post) σ = runLoop fs args n (X ++ post) σ) ∧
    kl27c 20 fsLib argsD ["#include lib.klt", "#include lib.klt", "main:", "nop"] =
      kl27c 20 fsLib argsD ["#include lib.klt", "main:", "nop"] := by
  constructor
  · intro fs args p first line fileRest hil hfs hid n
    induction n with
    | zero =>
      intro X post σ hmem hfe
      cases X with
      | nil =>
        cases post with
        | nil =>
          have hstep := stepLine_dup_include_skip fs args line p σ first fileRest hil hfs hid hmem
          simp [runLoop, hstep]
        | cons q qs => exact absurd rfl hfe
      | cons x xs => exact absurd rfl hfe
    | succ m ih =>
      intro X post σ hmem hfe
      cases X with
      | nil =>
        have hstep := stepLine_dup_include_skip fs args line p σ first fileRest hil hfs hid hmem
        simp [runLoop, hstep]
      | cons x xs =>
        cases hs : stepLine fs args x σ with
        | error e => simp [runLoop, hs]
        | ok r =>
          obtain ⟨ins, σ'⟩ := r
          have hRHS : runLoop fs args (m + 1) ((x :: xs) ++ post) σ =
              runLoop fs args m ((ins ++ xs) ++ post) σ' := by
            simp [runLoop, hs, List.append_assoc]
          have hLHS : runLoop fs args (m + 1 + 1) ((x :: xs) ++ line :: post) σ =
              runLoop fs args (m + 1) ((ins ++ xs) ++ line :: post) σ' := by
            simp [runLoop, hs, List.append_assoc]
          rw [hLHS, hRHS]
          apply ih
          · exact stepLine_includes_mono fs args x σ ins σ' hs _ hmem
          · rw [hRHS] at hfe
            exact hfe
  · rfl

/-- Witness for C6: with lib already recorded, one more fuel unit and the
duplicate include line produce the same run as without the line. -/
theorem C6_reinclude_skip_witness :
    runLoop fsLib argsD 3 ("#include lib.klt" :: ["hlt"]) sigmaC6W =
      runLoop fsLib argsD 2 ["hlt"] sigmaC6W := by
  exact C6_reinclude_skip.1 fsLib argsD "lib.klt" "#ID lib" "#include lib.klt"
    ["dep:", "hlt"] (by decide) rfl (by decide) 2 [] ["hlt"] sigmaC6W (by decide) (by decide)

end KL27
